import Mathlib

/-!
Verification development for the github-crawler repository
(`crawler.py`, `db.py`).

The Python sources are shallowly embedded:

* JSON objects returned by the GraphQL API are modelled with `JField`
  (a field can be absent, `null`, or carry a value), so that the
  Python `dict.get` / `or`-defaulting semantics is represented exactly.
* The Postgres store of `db.py` is a pure `DB` value: a list of
  repository rows, an append-only history list, and a list of
  checkpoint rows.  `bulk_upsert`, `save_checkpoint` and
  `get_checkpoint` mirror the `ON CONFLICT` behaviour of the SQL.
* `crawl_partition` of `crawler.py` is a recursion over the list of
  GraphQL responses the network would deliver (one response per
  `graphql_post` call made by the page loop); it additionally records
  a trace of observable calls (requests, sleeps, upserts, checkpoint
  writes) and, as ghost data, the list of records parsed.
* `graphql_post`'s retry loop is a recursion over the attempt numbers
  `[1..6]` with the outcome of each HTTP attempt given by an oracle.
* `partition_and_crawl`'s planning loop is fuel-bounded recursion;
  the loop advances `current` by at least one day per iteration over a
  span of `365*5 = 1825` days, so fuel `1826` is never exhausted.
-/

/-- A JSON object field: absent from the object, present as `null`, or
present with a value. -/
inductive JField (α : Type) : Type
  | absent : JField α
  | null : JField α
  | val : α → JField α
deriving DecidableEq, Repr

/-- The `owner` sub-object of a repository node (`{ login }`). -/
structure OwnerObj where
  login : JField String
deriving DecidableEq, Repr

/-- The `primaryLanguage` sub-object of a repository node (`{ name }`). -/
structure LangObj where
  name : JField String
deriving DecidableEq, Repr

/-- A raw repository node as returned inside `search.edges[*].node`. -/
structure RawNode where
  databaseId : JField Nat
  id : JField String
  name : JField String
  owner : JField OwnerObj
  url : JField String
  stargazerCount : JField Nat
  forkCount : JField Nat
  primaryLanguage : JField LangObj
  description : JField String
  createdAt : JField String
deriving DecidableEq, Repr

/-- The canonical entity dict produced by `parse_repo_node`. -/
structure RepoRecord where
  repo_id : String
  name : Option String
  owner : Option String
  full_name : String
  url : Option String
  stars : Int
  forks : Int
  language : Option String
  description : Option String
  created_at : Option String
deriving DecidableEq, Repr

/-- Python `str(x)` for an optional string (`str(None) = "None"`),
as used by the f-string building `full_name`. -/
def pyShowOpt : Option String → String
  | some s => s
  | none => "None"

/-- `node.get(k)` for a string-valued field: a value if present,
`None` (here `none`) when absent or `null`. -/
def jfOptS : JField String → Option String
  | .val s => some s
  | _ => none

/-- `str(node.get("id"))`: the string itself when present, `"None"`
when the field is absent or `null`. -/
def pyStrOfId : JField String → String
  | .val s => s
  | _ => "None"

/-- `str(node.get("databaseId") or node.get("id"))`: the integer id
when present and non-zero (Python truthiness), else fall back to the
string id. -/
def repoIdOf (node : RawNode) : String :=
  match node.databaseId with
  | .val n => if n = 0 then pyStrOfId node.id else toString n
  | _ => pyStrOfId node.id

/-- `node.get("stargazerCount") or 0` (and likewise for forks):
absent and `null` map to `0`; a value maps to itself (`0` is falsy in
Python but `0 or 0 = 0`, the same result). -/
def jfCount : JField Nat → Int
  | .val n => (n : Int)
  | _ => 0

/-- Builds the record dict of `parse_repo_node` once the owner login
has been extracted. -/
def mkParsed (node : RawNode) (login : Option String) : RepoRecord :=
  { repo_id := repoIdOf node
    name := jfOptS node.name
    owner := login
    full_name := pyShowOpt login ++ "/" ++ pyShowOpt (jfOptS node.name)
    url := jfOptS node.url
    stars := jfCount node.stargazerCount
    forks := jfCount node.forkCount
    language := match node.primaryLanguage with
      | .val L => jfOptS L.name
      | _ => none
    description := jfOptS node.description
    created_at := jfOptS node.createdAt }

/-- `parse_repo_node` from `crawler.py`.  `node.get("owner", {})`
yields `{}` when the key is absent, but yields `None` when the key is
present with value `null`, and `None.get("login")` raises an
`AttributeError`: that failure case is `none` here. -/
def parse_repo_node (node : RawNode) : Option RepoRecord :=
  match node.owner with
  | .null => none
  | .absent => some (mkParsed node none)
  | .val o => some (mkParsed node (jfOptS o.login))

/-- A row of the `crawl_checkpoints` relation. -/
structure CpRow where
  partition_key : String
  end_cursor : Option String
  fetched_count : Nat
deriving DecidableEq, Repr

/-- The relational store of `db.py`: the `repositories` table (rows
carry exactly the inserted entity fields), the append-only
`stars_history` table, and the `crawl_checkpoints` table. -/
structure DB where
  repositories : List RepoRecord
  stars_history : List (String × Int)
  checkpoints : List CpRow
deriving DecidableEq, Repr

/-- The empty store. -/
def emptyDB : DB := ⟨[], [], []⟩

/-- `ON CONFLICT (repo_id) DO UPDATE SET stars, forks, language,
description`: the conflicting row keeps its immutable columns and takes
the new mutable ones. -/
def mutateRow (old new : RepoRecord) : RepoRecord :=
  { old with stars := new.stars, forks := new.forks,
             language := new.language, description := new.description }

/-- One `INSERT ... ON CONFLICT (repo_id) DO UPDATE` statement:
update the row with the same key if present, else insert the record. -/
def upsertRow (rows : List RepoRecord) (r : RepoRecord) : List RepoRecord :=
  match rows with
  | [] => [r]
  | h :: t =>
    if h.repo_id = r.repo_id then mutateRow h r :: t
    else h :: upsertRow t r

/-- `bulk_upsert` from `db.py`: no-op on empty input, otherwise upsert
every record into `repositories` (in order) and append one
`stars_history` row per record. -/
def bulk_upsert (db : DB) (repos : List RepoRecord) : DB :=
  if repos.isEmpty then db
  else
    { db with
      repositories := repos.foldl upsertRow db.repositories
      stars_history :=
        db.stars_history ++ repos.map (fun r => (r.repo_id, r.stars)) }

/-- `INSERT ... ON CONFLICT (partition_key) DO UPDATE SET end_cursor =
EXCLUDED.end_cursor, fetched_count = crawl_checkpoints.fetched_count +
EXCLUDED.fetched_count` over the checkpoint rows. -/
def saveCpRows (rows : List CpRow) (key : String) (cursor : Option String)
    (delta : Nat) : List CpRow :=
  match rows with
  | [] => [⟨key, cursor, delta⟩]
  | r :: rs =>
    if r.partition_key = key then
      { r with end_cursor := cursor, fetched_count := r.fetched_count + delta } :: rs
    else r :: saveCpRows rs key cursor delta

/-- `save_checkpoint` from `db.py`. -/
def save_checkpoint (db : DB) (key : String) (cursor : Option String)
    (delta : Nat) : DB :=
  { db with checkpoints := saveCpRows db.checkpoints key cursor delta }

/-- `get_checkpoint` from `db.py`: the stored `(end_cursor,
fetched_count)` pair, defaulting to `(None, 0)` when no row exists. -/
def get_checkpoint (db : DB) (key : String) : Option String × Nat :=
  match db.checkpoints.find? (fun r => decide (r.partition_key = key)) with
  | some r => (r.end_cursor, r.fetched_count)
  | none => (none, 0)

/-- The `rateLimit` telemetry of a response: the `remaining` budget and
`resetAt` rendered as the number of seconds until the reset instant
(the value of `(reset_ts - datetime.utcnow()).total_seconds()`). -/
structure RateLimit where
  remaining : Int
  resetSecs : Int
deriving DecidableEq, Repr

/-- One element of `search.edges`: an object whose `node` field may be
absent, `null`, or a repository node. -/
structure Edge where
  node : JField RawNode
deriving DecidableEq, Repr

/-- `e.get("node") or {}`: the node when present, else the empty
object. -/
def emptyNode : RawNode :=
  ⟨.absent, .absent, .absent, .absent, .absent, .absent, .absent, .absent,
   .absent, .absent⟩

/-- Extract the node of an edge with Python defaulting. -/
def edgeNode (e : Edge) : RawNode :=
  match e.node with
  | .val n => n
  | _ => emptyNode

/-- A `graphql_post` result as seen by the page loop of
`crawl_partition`: either a body carrying an `errors` list, or a
successful page with its telemetry, edges and page info. -/
inductive GqlResponse : Type
  | errors : GqlResponse
  | page (rateLimit : Option RateLimit) (edges : List Edge)
      (hasNextPage : Bool) (endCursor : Option String) : GqlResponse
deriving DecidableEq, Repr

/-- Observable calls made by `crawl_partition`, in order: a
`graphql_post` request with its cursor, a `bulk_upsert` of a batch, a
`save_checkpoint` write, the fixed 10 s sleep after a GraphQL `errors`
body, the rate-limit sleep with its duration, and the 0.5 s polite
pause between pages. -/
inductive Call : Type
  | request (cursor : Option String)
  | upsert (rs : List RepoRecord)
  | saveCp (cursor : Option String) (delta : Nat)
  | sleepErr
  | sleepRL (secs : Int)
  | sleepPolite
deriving DecidableEq, Repr

/-- The `if rl: ... if rem is not None and rem < 10` test of the page
loop.  With telemetry present, `rem` is its integer `remaining`. -/
def rlLow : Option RateLimit → Bool
  | some info => decide (info.remaining < 10)
  | none => false

/-- `max(5, (reset_ts - datetime.utcnow()).total_seconds() + 5)`. -/
def rlWait : Option RateLimit → Int
  | some info => max 5 (info.resetSecs + 5)
  | none => 0

/-- Result of the inner `for e in edges` loop of `crawl_partition`:
the in-memory batch, the running `fetched` counter, the store after
any flushes, the observable calls emitted, and (ghost) the records
parsed and appended to the batch during the loop. -/
structure PageAcc where
  batch : List RepoRecord
  fetched : Nat
  db : DB
  events : List Call
  parsed : List RepoRecord
deriving Repr

/-- The `for e in edges` loop of `crawl_partition`: parse each node,
append it to the batch, bump `fetched`; flush (bulk upsert + checkpoint
with the requesting cursor) when the batch reaches 50; break as soon as
`fetched` reaches the partition bound.  `none` models the
`AttributeError` a `null` owner raises inside `parse_repo_node`. -/
def processEdges (key : String) (maxF : Nat) (cursor : Option String) :
    List Edge → List RepoRecord → Nat → DB → Option PageAcc
  | [], batch, fetched, db => some ⟨batch, fetched, db, [], []⟩
  | e :: es, batch, fetched, db =>
    match parse_repo_node (edgeNode e) with
    | none => none
    | some repo =>
      let batch1 := batch ++ [repo]
      let fetched1 := fetched + 1
      if 50 ≤ batch1.length then
        let db1 := save_checkpoint (bulk_upsert db batch1) key cursor batch1.length
        let evs := [Call.upsert batch1, Call.saveCp cursor batch1.length]
        if maxF ≤ fetched1 then
          some ⟨[], fetched1, db1, evs, [repo]⟩
        else
          (processEdges key maxF cursor es [] fetched1 db1).map
            (fun pa => { pa with
              events := Call.upsert batch1 :: Call.saveCp cursor batch1.length :: pa.events
              parsed := repo :: pa.parsed })
      else
        if maxF ≤ fetched1 then
          some ⟨batch1, fetched1, db, [], [repo]⟩
        else
          (processEdges key maxF cursor es batch1 fetched1 db).map
            (fun pa => { pa with parsed := repo :: pa.parsed })

/-- Result of a `crawl_partition` run: the returned `fetched` value,
the final store, the final (possibly unflushed) in-memory batch, the
trace of observable calls, and (ghost) the records parsed. -/
structure CrawlRes where
  fetched : Nat
  db : DB
  batch : List RepoRecord
  trace : List Call
  parsed : List RepoRecord
deriving Repr

/-- The `while fetched < max_from_partition` page loop of
`crawl_partition`, fed by the list of responses the successive
`graphql_post` calls return.  `none` means the run does not complete on
the given responses (the environment list ran out, or a parse raised).
On an `errors` body the loop sleeps 10 s and retries without advancing
the cursor; on low rate-limit telemetry it sleeps and retries the same
page; otherwise it consumes the page, advancing the cursor to
`endCursor` only afterwards, and on `hasNextPage = false` flushes any
remaining partial batch and returns. -/
def crawlLoop (key : String) (maxF : Nat) :
    List GqlResponse → Option String → Nat → List RepoRecord → DB →
    Option CrawlRes
  | responses, cursor, fetched, batch, db =>
    if fetched < maxF then
      match responses with
      | [] => none
      | GqlResponse.errors :: rest =>
        (crawlLoop key maxF rest cursor fetched batch db).map
          (fun r => { r with trace := Call.request cursor :: Call.sleepErr :: r.trace })
      | GqlResponse.page rl edges hasNext endCur :: rest =>
        if rlLow rl then
          (crawlLoop key maxF rest cursor fetched batch db).map
            (fun r => { r with
              trace := Call.request cursor :: Call.sleepRL (rlWait rl) :: r.trace })
        else
          match processEdges key maxF cursor edges batch fetched db with
          | none => none
          | some pe =>
            if hasNext then
              (crawlLoop key maxF rest endCur pe.fetched pe.batch pe.db).map
                (fun r =>
                  { fetched := r.fetched, db := r.db, batch := r.batch
                    trace := Call.request cursor ::
                      (pe.events ++ Call.sleepPolite :: r.trace)
                    parsed := pe.parsed ++ r.parsed })
            else
              match pe.batch with
              | [] =>
                some ⟨pe.fetched, pe.db, [], Call.request cursor :: pe.events,
                      pe.parsed⟩
              | b :: bs =>
                some ⟨pe.fetched,
                      save_checkpoint (bulk_upsert pe.db (b :: bs)) key cursor
                        (b :: bs).length,
                      [],
                      Call.request cursor ::
                        (pe.events ++
                          [Call.upsert (b :: bs),
                           Call.saveCp cursor (b :: bs).length]),
                      pe.parsed⟩
    else some ⟨fetched, db, batch, [], []⟩

/-- `crawl_partition` from `crawler.py`: load the checkpoint, start
from its cursor with `fetched` initialised to its count, then run the
page loop. -/
def crawl_partition (key : String) (maxF : Nat)
    (responses : List GqlResponse) (db : DB) : Option CrawlRes :=
  let cp := get_checkpoint db key
  crawlLoop key maxF responses cp.1 cp.2 [] db

/-- Outcome of one HTTP attempt inside `graphql_post`: a
`requests.exceptions.RequestException` (transport failure, including
the non-2xx raised by `raise_for_status`), or a successful response
whose JSON body may or may not carry an application-level `errors`
list. -/
inductive HttpOutcome : Type
  | transportErr : HttpOutcome
  | success (hasErrors : Bool) : HttpOutcome
deriving DecidableEq, Repr

/-- `min(60, 2 ** attempt)`: the backoff slept after a failed attempt. -/
def backoff (attempt : Nat) : Nat := min 60 (2 ^ attempt)

/-- The `for attempt in range(1, max_retries + 1)` loop of
`graphql_post`, over the remaining attempt numbers; the oracle `env`
gives the outcome of each numbered attempt.  Returns the body (`some`,
with its `errors` flag) or `none` for the `RuntimeError` raised after
exhausting all attempts, together with the list of backoff sleeps
performed. -/
def gqlAttempt (env : Nat → HttpOutcome) :
    List Nat → Option Bool × List Nat
  | [] => (none, [])
  | a :: rest =>
    match env a with
    | .success e => (some e, [])
    | .transportErr =>
      let r := gqlAttempt env rest
      (r.1, backoff a :: r.2)

/-- `graphql_post` from `crawler.py` with its default
`max_retries = 6`: attempts are numbered 1 through 6. -/
def graphql_post (env : Nat → HttpOutcome) : Option Bool × List Nat :=
  gqlAttempt env [1, 2, 3, 4, 5, 6]

/-- `365 * 5`, the `timedelta(days=365*5)` span of
`partition_and_crawl`. -/
def spanDays : Nat := 1825

/-- The count-dependent window shrink of `partition_and_crawl`: when
the weekly probe exceeds 1000 (and the window is wider than one day,
which a weekly window always is), re-probe a single-day window; if the
re-probe raises, fall back to `min(1000, count)`.  Returns the chosen
window end and count. -/
def shrinkWindow (probe : Nat → Nat → Except Unit Nat)
    (current wEnd0 count0 : Nat) : Nat × Nat :=
  if 1000 < count0 then
    match probe current current with
    | .ok c => (current, c)
    | .error _ => (current, min 1000 count0)
  else (wEnd0, count0)

/-- Result of a `partition_and_crawl` run: the emitted partition
windows (start day, end day), in order, and the aggregated `collected`
total it returns. -/
structure PlanRes where
  windows : List (Nat × Nat)
  collected : Nat
deriving DecidableEq, Repr

/-- The `try: count = fetch_partition_count(...) except: count = 1000`
fallback of `partition_and_crawl`. -/
def probeCount (probe : Nat → Nat → Except Unit Nat) (a b : Nat) : Nat :=
  match probe a b with
  | .ok c => c
  | .error _ => 1000

/-- The `while current < end and collected < total_target` loop of
`partition_and_crawl`, with days numbered by `Nat`.  `probe` is the
`fetch_partition_count` oracle for a window (`.error` models the
exception path) and `fetchO` gives the value `crawl_partition` returns
for a window and its `to_fetch` bound.  The loop advances `current` by
at least one day per iteration, so the fuel given by
`partition_and_crawl` is never exhausted. -/
def planLoop (probe : Nat → Nat → Except Unit Nat)
    (fetchO : Nat → Nat → Nat → Nat) (endDay target : Nat) :
    Nat → Nat → Nat → PlanRes
  | 0, _, collected => ⟨[], collected⟩
  | fuel + 1, current, collected =>
    if current < endDay ∧ collected < target then
      let wEnd0 := min endDay (current + 6)
      let wc := shrinkWindow probe current wEnd0 (probeCount probe current wEnd0)
      let toFetch := min wc.2 (target - collected)
      let fetched := fetchO current wc.1 toFetch
      let r := planLoop probe fetchO endDay target fuel (wc.1 + 1)
        (collected + fetched)
      ⟨(current, wc.1) :: r.windows, r.collected⟩
    else ⟨[], collected⟩

/-- `partition_and_crawl` from `crawler.py`: `start = end - 1825` days,
then the weekly planning loop.  Each iteration moves `current` past the
window end, hence by at least one day, so at most `spanDays` iterations
occur and fuel `spanDays + 1` is never exhausted. -/
def partition_and_crawl (probe : Nat → Nat → Except Unit Nat)
    (fetchO : Nat → Nat → Nat → Nat) (endDay target : Nat) : PlanRes :=
  planLoop probe fetchO endDay target (spanDays + 1) (endDay - spanDays) 0

/-- Lengths of the batches handed to `bulk_upsert`, in trace order. -/
def upsertLens (tr : List Call) : List Nat :=
  tr.filterMap (fun c => match c with
    | .upsert rs => some rs.length
    | _ => none)

/-- The `fetched_count` deltas written by `save_checkpoint`, in trace
order. -/
def cpDeltas (tr : List Call) : List Nat :=
  tr.filterMap (fun c => match c with
    | .saveCp _ d => some d
    | _ => none)

/-- Concatenation of all batches handed to `bulk_upsert`, in order. -/
def upsertsConcat : List Call → List RepoRecord
  | [] => []
  | .upsert rs :: t => rs ++ upsertsConcat t
  | _ :: t => upsertsConcat t

/-- Running sums of a list of deltas starting from `acc`. -/
def cumSumsFrom (acc : Nat) : List Nat → List Nat
  | [] => []
  | x :: t => (acc + x) :: cumSumsFrom (acc + x) t

/-- Running sums of a list of deltas: with no pre-existing checkpoint
row, the stored cumulative `fetched_count` after each write. -/
def cumSums (l : List Nat) : List Nat := cumSumsFrom 0 l

/-- True when every checkpoint write in the trace saves exactly the
cursor of the most recent request before it; `last` is the cursor of
the last request already seen (`none` when no request occurred yet). -/
def cpMatch (last : Option (Option String)) : List Call → Bool
  | [] => true
  | .request c :: t => cpMatch (some c) t
  | .saveCp c _ :: t => decide (some c = last) && cpMatch last t
  | _ :: t => cpMatch last t

/-- The cursor of the last request in `tr`, starting from `last`. -/
def lastReq (last : Option (Option String)) : List Call → Option (Option String)
  | [] => last
  | .request c :: t => lastReq (some c) t
  | _ :: t => lastReq last t

/-- True when the trace consists only of flush events (upserts and
checkpoint writes), as the inner edge loop emits. -/
def onlyFlushEvents : List Call → Bool
  | [] => true
  | .upsert _ :: t => onlyFlushEvents t
  | .saveCp _ _ :: t => onlyFlushEvents t
  | _ :: _ => false

/-- True when the trace contains no rate-limit sleep. -/
def noRLSleep : List Call → Bool
  | [] => true
  | .sleepRL _ :: _ => false
  | _ :: t => noRLSleep t

/-- The rows of the `repositories` table carrying a given entity id. -/
def rowsFor : List RepoRecord → String → List RepoRecord
  | [], _ => []
  | r :: t, ident =>
    if r.repo_id = ident then r :: rowsFor t ident else rowsFor t ident

/-- True when the consecutive windows are day-contiguous starting at
`s`: each window starts exactly where expected, does not end before it
starts, and the next window starts the day after it ends.  This
implies the windows are pairwise non-overlapping and that their union
is the unbroken day interval from `s` to the last window's end. -/
def chainFrom (s : Nat) : List (Nat × Nat) → Bool
  | [] => true
  | (a, b) :: rest => decide (a = s) && decide (a ≤ b) && chainFrom (b + 1) rest

/-- True when some emitted window contains the given day. -/
def coversDay (ws : List (Nat × Nat)) (d : Nat) : Bool :=
  ws.any (fun w => decide (w.1 ≤ d) && decide (d ≤ w.2))

/-- An edge whose node is the empty object: every field absent. -/
def dEdge : Edge := ⟨.val emptyNode⟩

/-- The three pages of the end-to-end scenario of the spec: 50, 50 and
20 records, with `hasNextPage = false` only on the last page. -/
def c2pages : List GqlResponse :=
  [GqlResponse.page none (List.replicate 50 dEdge) true (some "c1"),
   GqlResponse.page none (List.replicate 50 dEdge) true (some "c2"),
   GqlResponse.page none (List.replicate 20 dEdge) false (some "c3")]

/-- The record parsed from the empty node: every defaulted field. -/
def dRepo : RepoRecord := mkParsed emptyNode none

/-- Result of the one-page, target-5 run used as a delivery witness:
one record parsed, flushed and checkpointed. -/
def c1resW : CrawlRes :=
  ⟨1, save_checkpoint (bulk_upsert emptyDB [dRepo]) "k" none 1, [],
   [Call.request none, Call.upsert [dRepo], Call.saveCp none 1], [dRepo]⟩

/-- A store holding a checkpoint for partition `"k"`: cursor `"c0"`,
count 1. -/
def c3dbW : DB := save_checkpoint emptyDB "k" (some "c0") 1

/-- Result of resuming partition `"k"` (target 3) from `c3dbW` on a
single final page of two records. -/
def c3resW : CrawlRes :=
  ⟨3, save_checkpoint (bulk_upsert c3dbW [dRepo, dRepo]) "k" (some "c0") 2, [],
   [Call.request (some "c0"), Call.upsert [dRepo, dRepo],
    Call.saveCp (some "c0") 2], [dRepo, dRepo]⟩

/-! ## Checkpoint store lemmas -/

/-- Reading a key right after saving to it yields the saved cursor and
the previous count plus the delta, whether or not a row existed. -/
lemma get_save_checkpoint (db : DB) (key : String) (cursor : Option String)
    (delta : Nat) :
    get_checkpoint (save_checkpoint db key cursor delta) key =
      (cursor, (get_checkpoint db key).2 + delta) := by
  rcases db with ⟨reps, hist, rows⟩
  simp only [get_checkpoint, save_checkpoint]
  induction rows with
  | nil => simp [saveCpRows]
  | cons r rs ih =>
    by_cases h : r.partition_key = key
    · simp [saveCpRows, if_pos h, List.find?_cons, h]
    · simp only [saveCpRows, if_neg h]
      rw [List.find?_cons, List.find?_cons]
      simp only [h, decide_eq_true_eq, decide_False]
      simpa [h] using ih

/-- Folding a list of checkpoint saves for one key accumulates the
deltas onto the stored count and keeps the last cursor. -/
lemma get_fold_saves (key : String) (saves : List (Option String × Nat)) :
    ∀ db : DB,
      get_checkpoint
        (saves.foldl (fun d p => save_checkpoint d key p.1 p.2) db) key =
      (saves.foldl (fun _ p => p.1) (get_checkpoint db key).1,
       (get_checkpoint db key).2 + (saves.map Prod.snd).sum) := by
  induction saves with
  | nil => intro db; simp
  | cons p ps ih =>
    intro db
    simp only [List.foldl_cons, List.map_cons, List.sum_cons]
    rw [ih, get_save_checkpoint]
    simp [Nat.add_assoc]

/-- Claim C4: a sequence of `save_checkpoint` calls on one partition
key, starting with no stored row for that key, leaves a row whose
`fetched_count` is the sum of all deltas (the first call creates the
row, each conflicting call adds its delta) and whose `end_cursor` is
the most recently saved cursor. -/
theorem c4_checkpoint_monotonicity (db : DB) (key : String)
    (c0 : Option String) (d0 : Nat) (saves : List (Option String × Nat))
    (habs : db.checkpoints.find? (fun r => decide (r.partition_key = key)) = none) :
    get_checkpoint
      (((c0, d0) :: saves).foldl (fun d p => save_checkpoint d key p.1 p.2) db)
      key =
      (saves.foldl (fun _ p => p.1) c0, d0 + (saves.map Prod.snd).sum) := by
  have h0 : get_checkpoint db key = (none, 0) := by
    simp [get_checkpoint, habs]
  rw [get_fold_saves, h0]
  simp

/-- Witness for C4 at a concrete store and save sequence. -/
theorem c4_checkpoint_monotonicity_witness :
    get_checkpoint
      (([((some "a" : Option String), 3), (some "b", 4)]).foldl
        (fun d p => save_checkpoint d "p" p.1 p.2) emptyDB) "p" =
      (some "b", 7) := by
  have h := c4_checkpoint_monotonicity emptyDB "p" (some "a") 3 [(some "b", 4)]
    (by rfl)
  simpa using h

/-! ## Repository upsert lemmas -/

/-- `mutateRow` keeps the conflicting row's key. -/
lemma mutateRow_repo_id (a b : RepoRecord) :
    (mutateRow a b).repo_id = a.repo_id := rfl

/-- Upserting a record whose key is not in the table appends exactly
one row for that key: the record itself. -/
lemma rowsFor_upsertRow_absent (r : RepoRecord) :
    ∀ rows : List RepoRecord, rowsFor rows r.repo_id = [] →
      rowsFor (upsertRow rows r) r.repo_id = [r] := by
  intro rows
  induction rows with
  | nil => intro _; simp [upsertRow, rowsFor]
  | cons a t ih =>
    intro h
    rw [rowsFor] at h
    by_cases h1 : a.repo_id = r.repo_id
    · rw [if_pos h1] at h
      exact absurd h (by simp)
    · rw [if_neg h1] at h
      rw [upsertRow, if_neg h1, rowsFor, if_neg h1]
      exact ih h

/-- Upserting a record whose key has exactly one row updates that row
in place: afterwards the key still has exactly one row, the mutated
one. -/
lemma rowsFor_upsertRow_one (r a : RepoRecord) :
    ∀ rows : List RepoRecord, rowsFor rows r.repo_id = [a] →
      rowsFor (upsertRow rows r) r.repo_id = [mutateRow a r] := by
  intro rows
  induction rows with
  | nil => intro h; exact absurd h (by simp [rowsFor])
  | cons b t ih =>
    intro h
    rw [rowsFor] at h
    by_cases h1 : b.repo_id = r.repo_id
    · rw [if_pos h1] at h
      have hb : b = a := by
        have := congrArg (fun l => l.head? ) h
        simpa using this
      have ht : rowsFor t r.repo_id = [] := by
        have := congrArg (fun l => l.tail) h
        simpa using this
      subst hb
      rw [upsertRow, if_pos h1, rowsFor]
      rw [mutateRow_repo_id]
      rw [if_pos h1]
      rw [ht]
    · rw [if_neg h1] at h
      rw [upsertRow, if_neg h1, rowsFor, if_neg h1]
      exact ih h

/-- `bulk_upsert` of a single record is one row upsert on the
`repositories` table. -/
lemma bulk_upsert_single (db : DB) (r : RepoRecord) :
    (bulk_upsert db [r]).repositories = upsertRow db.repositories r := by
  simp [bulk_upsert]

/-- Claim C8: upserting the same entity twice with differing mutable
fields, into a table holding at most one row for that id, leaves
exactly one `repositories` row for the id, carrying the later call's
stars, forks, language and description. -/
theorem c8_idempotent_upsert (db : DB) (r1 r2 : RepoRecord)
    (hkey : r1.repo_id = r2.repo_id)
    (huniq : (rowsFor db.repositories r2.repo_id).length ≤ 1) :
    ∃ row,
      rowsFor (bulk_upsert (bulk_upsert db [r1]) [r2]).repositories r2.repo_id
        = [row]
      ∧ row.stars = r2.stars ∧ row.forks = r2.forks
      ∧ row.language = r2.language ∧ row.description = r2.description := by
  rw [bulk_upsert_single, bulk_upsert_single]
  match h1 : rowsFor db.repositories r2.repo_id with
  | [] =>
    have step1 : rowsFor (upsertRow db.repositories r1) r2.repo_id = [r1] := by
      have := rowsFor_upsertRow_absent r1 db.repositories (by rw [hkey]; exact h1)
      rwa [hkey] at this
    have step2 :
        rowsFor (upsertRow (upsertRow db.repositories r1) r2) r2.repo_id
          = [mutateRow r1 r2] :=
      rowsFor_upsertRow_one r2 r1 _ step1
    exact ⟨mutateRow r1 r2, step2, rfl, rfl, rfl, rfl⟩
  | [a] =>
    have step1 : rowsFor (upsertRow db.repositories r1) r2.repo_id
        = [mutateRow a r1] := by
      have := rowsFor_upsertRow_one r1 a db.repositories (by rw [hkey]; exact h1)
      rwa [hkey] at this
    have step2 :
        rowsFor (upsertRow (upsertRow db.repositories r1) r2) r2.repo_id
          = [mutateRow (mutateRow a r1) r2] :=
      rowsFor_upsertRow_one r2 (mutateRow a r1) _ step1
    exact ⟨mutateRow (mutateRow a r1) r2, step2, rfl, rfl, rfl, rfl⟩
  | a :: b :: t =>
    rw [h1] at huniq
    exact absurd huniq (by simp)

/-- Witness for C8: the same id upserted twice into the empty store
with different stars and description keeps one row with the second
call's values. -/
theorem c8_idempotent_upsert_witness :
    ∃ row,
      rowsFor
        (bulk_upsert
          (bulk_upsert emptyDB
            [{ repo_id := "1", name := some "x", owner := some "o",
               full_name := "o/x", url := none, stars := 5, forks := 1,
               language := some "Python", description := some "old",
               created_at := none }])
          [{ repo_id := "1", name := some "x", owner := some "o",
             full_name := "o/x", url := none, stars := 9, forks := 2,
             language := some "Rust", description := some "new",
             created_at := none }]).repositories "1" = [row]
      ∧ row.stars = 9 ∧ row.forks = 2
      ∧ row.language = some "Rust" ∧ row.description = some "new" := by
  have h := c8_idempotent_upsert emptyDB
    { repo_id := "1", name := some "x", owner := some "o",
      full_name := "o/x", url := none, stars := 5, forks := 1,
      language := some "Python", description := some "old",
      created_at := none }
    { repo_id := "1", name := some "x", owner := some "o",
      full_name := "o/x", url := none, stars := 9, forks := 2,
      language := some "Rust", description := some "new",
      created_at := none }
    rfl (by simp [emptyDB, rowsFor])
  simpa using h

/-! ## Parsing -/

/-- Claim C10: on every raw node whose `owner` is absent or an object
(not `null`), `parse_repo_node` succeeds, its stars and forks are
non-negative, absent or null counts map to 0, and absent or null
`primaryLanguage` and `description` map to `none`. -/
theorem c10_parse_total_nonneg (node : RawNode)
    (howner : node.owner ≠ JField.null) :
    ∃ r, parse_repo_node node = some r
      ∧ 0 ≤ r.stars ∧ 0 ≤ r.forks
      ∧ ((node.stargazerCount = JField.absent ∨ node.stargazerCount = JField.null)
          → r.stars = 0)
      ∧ ((node.forkCount = JField.absent ∨ node.forkCount = JField.null)
          → r.forks = 0)
      ∧ ((node.primaryLanguage = JField.absent ∨ node.primaryLanguage = JField.null)
          → r.language = none)
      ∧ ((node.description = JField.absent ∨ node.description = JField.null)
          → r.description = none) := by
  have hcount : ∀ f : JField Nat, 0 ≤ jfCount f := by
    intro f; cases f <;> simp [jfCount]
  have hcount0 : ∀ f : JField Nat,
      (f = JField.absent ∨ f = JField.null) → jfCount f = 0 := by
    intro f hf; rcases hf with hf | hf <;> subst hf <;> rfl
  have hlang : ∀ login,
      ((node.primaryLanguage = JField.absent ∨ node.primaryLanguage = JField.null)
        → (mkParsed node login).language = none) := by
    intro login hf
    rcases hf with hf | hf <;> simp [mkParsed, hf]
  have hdesc : ∀ login,
      ((node.description = JField.absent ∨ node.description = JField.null)
        → (mkParsed node login).description = none) := by
    intro login hf
    rcases hf with hf | hf <;> simp [mkParsed, hf, jfOptS]
  cases hown : node.owner with
  | null => exact absurd hown howner
  | absent =>
    refine ⟨mkParsed node none, ?_, hcount _, hcount _, ?_, ?_, hlang none, hdesc none⟩
    · simp [parse_repo_node, hown]
    · intro hf; exact hcount0 _ hf
    · intro hf; exact hcount0 _ hf
  | val o =>
    refine ⟨mkParsed node (jfOptS o.login), ?_, hcount _, hcount _, ?_, ?_,
      hlang _, hdesc _⟩
    · simp [parse_repo_node, hown]
    · intro hf; exact hcount0 _ hf
    · intro hf; exact hcount0 _ hf

/-! ## Trace projection lemmas -/

/-- `upsertsConcat` distributes over trace concatenation. -/
lemma upsertsConcat_append : ∀ a b : List Call,
    upsertsConcat (a ++ b) = upsertsConcat a ++ upsertsConcat b := by
  intro a b
  induction a with
  | nil => simp [upsertsConcat]
  | cons c t ih =>
    cases c <;> simp [upsertsConcat, ih]

/-- `upsertLens` distributes over trace concatenation. -/
lemma upsertLens_append (a b : List Call) :
    upsertLens (a ++ b) = upsertLens a ++ upsertLens b := by
  simp [upsertLens, List.filterMap_append]

/-- `cpDeltas` distributes over trace concatenation. -/
lemma cpDeltas_append (a b : List Call) :
    cpDeltas (a ++ b) = cpDeltas a ++ cpDeltas b := by
  simp [cpDeltas, List.filterMap_append]

/-- Splitting `cpMatch` at a concatenation: the second part is checked
against the last request of the first part. -/
lemma cpMatch_append : ∀ (a b : List Call) (last : Option (Option String)),
    cpMatch last (a ++ b) =
      (cpMatch last a && cpMatch (lastReq last a) b) := by
  intro a
  induction a with
  | nil => intro b last; simp [cpMatch, lastReq]
  | cons c t ih =>
    intro b last
    cases c with
    | request cu => simp [cpMatch, lastReq, ih]
    | saveCp cu d =>
      simp only [List.cons_append, cpMatch, lastReq, ih]
      by_cases h : some cu = last <;> simp [h, ih]
    | upsert rs => simp [cpMatch, lastReq, ih]
    | sleepErr => simp [cpMatch, lastReq, ih]
    | sleepRL s => simp [cpMatch, lastReq, ih]
    | sleepPolite => simp [cpMatch, lastReq, ih]

/-- Flush-only traces contain no request, so they do not change the
last request seen. -/
lemma lastReq_flushOnly : ∀ (a : List Call) (last : Option (Option String)),
    onlyFlushEvents a = true → lastReq last a = last := by
  intro a
  induction a with
  | nil => intro last _; rfl
  | cons c t ih =>
    intro last h
    cases c <;> simp [onlyFlushEvents] at h <;> simp [lastReq, ih _ h]

/-! ## Inner edge-loop invariants -/

/-- Invariants of the `for e in edges` loop: the flushed batches plus
the remaining in-memory batch are exactly the prior batch plus the
records parsed; `fetched` grows by the number parsed and never passes
the partition bound; every checkpoint delta equals the size of the
batch flushed with it; the events are flush events only, carry no
rate-limit sleep, and checkpoint exactly the requesting cursor. -/
lemma processEdges_spec (key : String) (maxF : Nat) (cursor : Option String) :
    ∀ (edges : List Edge) (batch : List RepoRecord) (fetched : Nat) (db : DB)
      (pe : PageAcc),
      processEdges key maxF cursor edges batch fetched db = some pe →
      (upsertsConcat pe.events ++ pe.batch = batch ++ pe.parsed)
      ∧ (pe.fetched = fetched + pe.parsed.length)
      ∧ (fetched < maxF → pe.fetched ≤ maxF)
      ∧ (cpDeltas pe.events = upsertLens pe.events)
      ∧ (onlyFlushEvents pe.events = true)
      ∧ (cpMatch (some cursor) pe.events = true)
      ∧ (noRLSleep pe.events = true) := by
  intro edges
  induction edges with
  | nil =>
    intro batch fetched db pe h
    simp only [processEdges] at h
    injection h with h
    subst h
    refine ⟨by simp [upsertsConcat], by simp, fun hf => le_of_lt hf,
      rfl, rfl, rfl, rfl⟩
  | cons e es ih =>
    intro batch fetched db pe h
    simp only [processEdges] at h
    cases hp : parse_repo_node (edgeNode e) with
    | none => rw [hp] at h; exact absurd h (by simp)
    | some repo =>
      rw [hp] at h
      dsimp only at h
      by_cases hb : 50 ≤ (batch ++ [repo]).length
      · rw [if_pos hb] at h
        by_cases hf : maxF ≤ fetched + 1
        · rw [if_pos hf] at h
          injection h with h
          subst h
          refine ⟨?_, by simp, fun hlt => by show fetched + 1 ≤ maxF; omega,
            ?_, rfl, ?_, rfl⟩
          · simp [upsertsConcat]
          · simp [cpDeltas, upsertLens, List.filterMap_cons]
          · simp [cpMatch]
        · rw [if_neg hf] at h
          cases hrec : processEdges key maxF cursor es [] (fetched + 1)
              (save_checkpoint (bulk_upsert db (batch ++ [repo])) key cursor
                (batch ++ [repo]).length) with
          | none => rw [hrec] at h; exact absurd h (by simp)
          | some pa =>
            rw [hrec] at h
            injection h with h
            subst h
            obtain ⟨q1, q2, q3, q4, q5, q6, q7⟩ := ih _ _ _ _ hrec
            refine ⟨?_, ?_, ?_, ?_, ?_, ?_, ?_⟩
            · simp only [upsertsConcat, List.append_assoc, q1]
              simp
            · simp only [q2]
              simp only [List.length_cons]
              omega
            · intro _
              exact q3 (by omega)
            · simpa [cpDeltas, upsertLens] using q4
            · simpa [onlyFlushEvents] using q5
            · simpa [cpMatch] using q6
            · simpa [noRLSleep] using q7
      · rw [if_neg hb] at h
        by_cases hf : maxF ≤ fetched + 1
        · rw [if_pos hf] at h
          injection h with h
          subst h
          exact ⟨by simp [upsertsConcat], by simp,
            fun hlt => by show fetched + 1 ≤ maxF; omega, rfl, rfl, rfl, rfl⟩
        · rw [if_neg hf] at h
          cases hrec : processEdges key maxF cursor es (batch ++ [repo])
              (fetched + 1) db with
          | none => rw [hrec] at h; exact absurd h (by simp)
          | some pa =>
            rw [hrec] at h
            injection h with h
            subst h
            obtain ⟨q1, q2, q3, q4, q5, q6, q7⟩ := ih _ _ _ _ hrec
            refine ⟨?_, ?_, ?_, q4, q5, q6, q7⟩
            · simp only [q1]
              simp
            · simp only [q2, List.length_cons]
              omega
            · intro _
              exact q3 (by omega)

/-! ## Page-loop invariants -/

/-- Invariants of the `while fetched < max_from_partition` loop, for
any completed run: the concatenation of all flushed batches followed by
the final in-memory batch is the prior batch plus every record parsed;
`fetched` grows by exactly the number of records parsed and never
passes the bound; a non-empty final batch occurs only when the bound
was reached; every checkpoint delta equals the size of the batch
flushed with it; a run entered at or above the bound returns
immediately and untouched; a run entered below the bound starts with a
request carrying the entry cursor; and every checkpoint write saves the
cursor of the most recent request. -/
lemma crawlLoop_spec (key : String) (maxF : Nat) :
    ∀ (responses : List GqlResponse) (cursor : Option String) (fetched : Nat)
      (batch : List RepoRecord) (db : DB) (res : CrawlRes),
      crawlLoop key maxF responses cursor fetched batch db = some res →
      (upsertsConcat res.trace ++ res.batch = batch ++ res.parsed)
      ∧ (res.fetched = fetched + res.parsed.length)
      ∧ (fetched ≤ maxF → res.fetched ≤ maxF)
      ∧ (res.batch ≠ [] → maxF ≤ res.fetched)
      ∧ (cpDeltas res.trace = upsertLens res.trace)
      ∧ (maxF ≤ fetched → res = ⟨fetched, db, batch, [], []⟩)
      ∧ (fetched < maxF → ∃ t, res.trace = Call.request cursor :: t)
      ∧ (∀ last, cpMatch last res.trace = true) := by
  intro responses
  induction responses with
  | nil =>
    intro cursor fetched batch db res h
    simp only [crawlLoop] at h
    by_cases hf : fetched < maxF
    · rw [if_pos hf] at h
      exact absurd h (by simp)
    · rw [if_neg hf] at h
      injection h with h
      subst h
      exact ⟨by simp [upsertsConcat], by simp, fun h2 => h2,
        fun _ => by show maxF ≤ fetched; omega,
        rfl, fun _ => rfl, fun hlt => absurd hlt hf, fun _ => rfl⟩
  | cons resp rest ih =>
    intro cursor fetched batch db res h
    by_cases hf : fetched < maxF
    · cases resp with
      | errors =>
        simp only [crawlLoop] at h
        rw [if_pos hf] at h
        cases hrec : crawlLoop key maxF rest cursor fetched batch db with
        | none => rw [hrec] at h; exact absurd h (by simp)
        | some r =>
          rw [hrec] at h
          injection h with h
          subst h
          obtain ⟨q1, q2, q3, q4, q5, q6, q7, q8⟩ := ih _ _ _ _ _ hrec
          refine ⟨?_, q2, q3, q4, ?_, ?_, fun _ => ⟨_, rfl⟩, ?_⟩
          · simpa [upsertsConcat] using q1
          · simpa [cpDeltas, upsertLens] using q5
          · intro hmf; omega
          · intro last
            simpa [cpMatch] using q8 (some cursor)
      | page rl edges hasNext endCur =>
        simp only [crawlLoop] at h
        rw [if_pos hf] at h
        by_cases hrl : rlLow rl = true
        · rw [if_pos hrl] at h
          cases hrec : crawlLoop key maxF rest cursor fetched batch db with
          | none => rw [hrec] at h; exact absurd h (by simp)
          | some r =>
            rw [hrec] at h
            injection h with h
            subst h
            obtain ⟨q1, q2, q3, q4, q5, q6, q7, q8⟩ := ih _ _ _ _ _ hrec
            refine ⟨?_, q2, q3, q4, ?_, ?_, fun _ => ⟨_, rfl⟩, ?_⟩
            · simpa [upsertsConcat] using q1
            · simpa [cpDeltas, upsertLens] using q5
            · intro hmf; omega
            · intro last
              simpa [cpMatch] using q8 (some cursor)
        · rw [if_neg hrl] at h
          split at h
          next _ => exact absurd h (by simp)
          next pe hpe =>
            obtain ⟨p1, p2, p3, p4, p5, p6, p7⟩ :=
              processEdges_spec key maxF cursor _ _ _ _ _ hpe
            cases hasNext with
            | true =>
              rw [if_pos rfl] at h
              cases hrec : crawlLoop key maxF rest endCur pe.fetched pe.batch
                  pe.db with
              | none => rw [hrec] at h; exact absurd h (by simp)
              | some r =>
                rw [hrec] at h
                injection h with h
                subst h
                obtain ⟨q1, q2, q3, q4, q5, q6, q7, q8⟩ := ih _ _ _ _ _ hrec
                refine ⟨?_, ?_, ?_, q4, ?_, ?_, fun _ => ⟨_, rfl⟩, ?_⟩
                · show upsertsConcat
                      (Call.request cursor ::
                        (pe.events ++ Call.sleepPolite :: r.trace)) ++ r.batch
                      = batch ++ (pe.parsed ++ r.parsed)
                  have huc : upsertsConcat
                      (Call.request cursor ::
                        (pe.events ++ Call.sleepPolite :: r.trace))
                      = upsertsConcat pe.events ++ upsertsConcat r.trace := by
                    simp [upsertsConcat, upsertsConcat_append]
                  rw [huc, List.append_assoc, q1, ← List.append_assoc, p1,
                    List.append_assoc]
                · show r.fetched = fetched + (pe.parsed ++ r.parsed).length
                  rw [q2, p2]
                  simp only [List.length_append]
                  omega
                · intro _
                  exact q3 (p3 hf)
                · show cpDeltas (Call.request cursor ::
                      (pe.events ++ Call.sleepPolite :: r.trace))
                      = upsertLens (Call.request cursor ::
                      (pe.events ++ Call.sleepPolite :: r.trace))
                  have hd : cpDeltas (Call.request cursor ::
                      (pe.events ++ Call.sleepPolite :: r.trace))
                      = cpDeltas pe.events ++ cpDeltas r.trace := by
                    simp [cpDeltas, List.filterMap_append, List.filterMap_cons]
                  have hl : upsertLens (Call.request cursor ::
                      (pe.events ++ Call.sleepPolite :: r.trace))
                      = upsertLens pe.events ++ upsertLens r.trace := by
                    simp [upsertLens, List.filterMap_append, List.filterMap_cons]
                  rw [hd, hl, p4, q5]
                · intro hmf; omega
                · intro last
                  show cpMatch last (Call.request cursor ::
                      (pe.events ++ Call.sleepPolite :: r.trace)) = true
                  rw [cpMatch, cpMatch_append, lastReq_flushOnly _ _ p5, p6]
                  simpa [cpMatch] using q8 (some cursor)
            | false =>
              rw [if_neg (by simp)] at h
              split at h
              next hbatch =>
                injection h with h
                subst h
                refine ⟨?_, p2, fun _ => p3 hf, fun hc => absurd rfl hc, ?_,
                  ?_, fun _ => ⟨_, rfl⟩, ?_⟩
                · show upsertsConcat (Call.request cursor :: pe.events) ++ []
                      = batch ++ pe.parsed
                  have hps := p1
                  rw [hbatch] at hps
                  simpa [upsertsConcat] using hps
                · show cpDeltas (Call.request cursor :: pe.events)
                      = upsertLens (Call.request cursor :: pe.events)
                  simpa [cpDeltas, upsertLens, List.filterMap_cons] using p4
                · intro hmf; omega
                · intro last
                  show cpMatch last (Call.request cursor :: pe.events) = true
                  simpa [cpMatch] using p6
              next b bs hbatch =>
                injection h with h
                subst h
                refine ⟨?_, p2, fun _ => p3 hf, fun hc => absurd rfl hc, ?_,
                  ?_, fun _ => ⟨_, rfl⟩, ?_⟩
                · show upsertsConcat (Call.request cursor ::
                      (pe.events ++ [Call.upsert (b :: bs),
                        Call.saveCp cursor (b :: bs).length])) ++ []
                      = batch ++ pe.parsed
                  have huc : upsertsConcat (Call.request cursor ::
                      (pe.events ++ [Call.upsert (b :: bs),
                        Call.saveCp cursor (b :: bs).length]))
                      = upsertsConcat pe.events ++ (b :: bs) := by
                    simp [upsertsConcat, upsertsConcat_append]
                  rw [huc]
                  have hps := p1
                  rw [hbatch] at hps
                  simpa using hps
                · show cpDeltas (Call.request cursor ::
                      (pe.events ++ [Call.upsert (b :: bs),
                        Call.saveCp cursor (b :: bs).length]))
                      = upsertLens (Call.request cursor ::
                      (pe.events ++ [Call.upsert (b :: bs),
                        Call.saveCp cursor (b :: bs).length]))
                  have hd : cpDeltas (Call.request cursor ::
                      (pe.events ++ [Call.upsert (b :: bs),
                        Call.saveCp cursor (b :: bs).length]))
                      = cpDeltas pe.events ++ [(b :: bs).length] := by
                    simp [cpDeltas, List.filterMap_append, List.filterMap_cons]
                  have hl : upsertLens (Call.request cursor ::
                      (pe.events ++ [Call.upsert (b :: bs),
                        Call.saveCp cursor (b :: bs).length]))
                      = upsertLens pe.events ++ [(b :: bs).length] := by
                    simp [upsertLens, List.filterMap_append, List.filterMap_cons]
                  rw [hd, hl, p4]
                · intro hmf; omega
                · intro last
                  show cpMatch last (Call.request cursor ::
                      (pe.events ++ [Call.upsert (b :: bs),
                        Call.saveCp cursor (b :: bs).length])) = true
                  rw [cpMatch, cpMatch_append, lastReq_flushOnly _ _ p5, p6]
                  simp [cpMatch]
    · cases resp with
      | errors =>
        simp only [crawlLoop] at h
        rw [if_neg hf] at h
        injection h with h
        subst h
        exact ⟨by simp [upsertsConcat], by simp, fun h2 => h2,
          fun _ => by show maxF ≤ fetched; omega,
          rfl, fun _ => rfl, fun hlt => absurd hlt hf, fun _ => rfl⟩
      | page rl edges hasNext endCur =>
        simp only [crawlLoop] at h
        rw [if_neg hf] at h
        injection h with h
        subst h
        exact ⟨by simp [upsertsConcat], by simp, fun h2 => h2,
          fun _ => by show maxF ≤ fetched; omega,
          rfl, fun _ => rfl, fun hlt => absurd hlt hf, fun _ => rfl⟩

/-- Claim C1 (amended): in every completed `crawl_partition` run, the
records delivered to storage through `bulk_upsert`, in order, followed
by the final in-memory batch are exactly the records parsed (and
counted in the returned `fetched`); the final batch can be non-empty
only when the run stopped because the fetch target was reached, so a
run ending by page exhaustion has delivered everything — but a run
that reaches the target mid-batch while the last page reports
`hasNextPage = true` returns with parsed, counted records left
unflushed (see the counterexample). -/
theorem c1_delivery_amended (key : String) (maxF : Nat)
    (responses : List GqlResponse) (db : DB) (res : CrawlRes)
    (h : crawl_partition key maxF responses db = some res) :
    upsertsConcat res.trace ++ res.batch = res.parsed
    ∧ (res.batch ≠ [] → maxF ≤ res.fetched) := by
  obtain ⟨q1, _, _, q4, _, _, _, _⟩ := crawlLoop_spec key maxF _ _ _ _ _ _ h
  exact ⟨by simpa using q1, q4⟩

/-- Witness for C1 (amended) on a one-page run with target 5: the
flushed record is the parsed record and the batch came back empty. -/
theorem c1_delivery_amended_witness :
    upsertsConcat c1resW.trace ++ c1resW.batch = c1resW.parsed
    ∧ (c1resW.batch ≠ [] → 5 ≤ c1resW.fetched) :=
  c1_delivery_amended "k" 5 [GqlResponse.page none [dEdge] false none]
    emptyDB c1resW (by rfl)

/-- Claim C3: resuming a partition whose stored checkpoint count F is
below the target starts with a request carrying the checkpointed
cursor, initialises `fetched` to F (the returned total is F plus the
number of newly parsed records), appends at most `target - F` new
records, and writes checkpoint increments exactly equal to the flushed
batch sizes, so F is never re-added as a new increment; with F at or
above the target, the run terminates immediately: it returns F, makes
no request, flushes nothing and leaves the store untouched. -/
theorem c3_resume_correctness (key : String) (maxF : Nat)
    (responses : List GqlResponse) (db : DB) (res : CrawlRes)
    (h : crawl_partition key maxF responses db = some res) :
    ((get_checkpoint db key).2 < maxF →
      (∃ t, res.trace = Call.request (get_checkpoint db key).1 :: t)
      ∧ res.fetched = (get_checkpoint db key).2 + res.parsed.length
      ∧ res.parsed.length ≤ maxF - (get_checkpoint db key).2
      ∧ cpDeltas res.trace = upsertLens res.trace)
    ∧ (maxF ≤ (get_checkpoint db key).2 →
      res.fetched = (get_checkpoint db key).2 ∧ res.trace = []
      ∧ res.db = db ∧ res.parsed = []) := by
  obtain ⟨q1, q2, q3, q4, q5, q6, q7, q8⟩ :=
    crawlLoop_spec key maxF _ _ _ _ _ _ h
  constructor
  · intro hlt
    refine ⟨q7 hlt, q2, ?_, q5⟩
    have hle := q3 (le_of_lt hlt)
    omega
  · intro hge
    have hres := q6 hge
    subst hres
    exact ⟨rfl, rfl, rfl, rfl⟩

/-- Witness for C3: resuming from checkpoint count 1 (cursor `"c0"`)
with target 3 on a final page of two records. -/
theorem c3_resume_correctness_witness :
    ((get_checkpoint c3dbW "k").2 < 3 →
      (∃ t, c3resW.trace = Call.request (get_checkpoint c3dbW "k").1 :: t)
      ∧ c3resW.fetched = (get_checkpoint c3dbW "k").2 + c3resW.parsed.length
      ∧ c3resW.parsed.length ≤ 3 - (get_checkpoint c3dbW "k").2
      ∧ cpDeltas c3resW.trace = upsertLens c3resW.trace)
    ∧ (3 ≤ (get_checkpoint c3dbW "k").2 →
      c3resW.fetched = (get_checkpoint c3dbW "k").2 ∧ c3resW.trace = []
      ∧ c3resW.db = c3dbW ∧ c3resW.parsed = []) :=
  c3_resume_correctness "k" 3
    [GqlResponse.page none [dEdge, dEdge] false none] c3dbW c3resW (by rfl)

/-- Claim C6: every checkpoint a `crawl_partition` run writes — at
full batches of 50 and at the final partial flush alike — saves the
cursor that was used to request the page being consumed (the cursor
variable advances to the page's `endCursor` only after its edges are
processed): in the call trace, each `save_checkpoint` carries exactly
the cursor of the most recent request, so a resume re-requests that
same page. -/
theorem c6_checkpoint_cursor (key : String) (maxF : Nat)
    (responses : List GqlResponse) (db : DB) (res : CrawlRes)
    (h : crawl_partition key maxF responses db = some res) :
    cpMatch none res.trace = true :=
  (crawlLoop_spec key maxF _ _ _ _ _ _ h).2.2.2.2.2.2.2 none

/-- Witness for C6 on the resumed two-record run: its checkpoint write
carries the cursor of the page request. -/
theorem c6_checkpoint_cursor_witness : cpMatch none c3resW.trace = true :=
  c6_checkpoint_cursor "k" 3
    [GqlResponse.page none [dEdge, dEdge] false none] c3dbW c3resW (by rfl)

/-- Claim C7: when a page's rate-limit telemetry reports remaining
below 10, the loop sleeps `max(5, seconds_until_reset + 5)` seconds —
at least `seconds_until_reset` — and retries the same page with
cursor, count and batch unchanged; when remaining is at least 10 the
telemetry is ignored entirely (the step behaves exactly as if no
telemetry were present, proceeding to consume the page), and the
consuming edge loop never emits a rate-limit sleep. -/
theorem c7_rate_limit_backoff (key : String) (maxF : Nat)
    (info : RateLimit) (edges : List Edge) (hasNext : Bool)
    (endCur : Option String) (rest : List GqlResponse)
    (cursor : Option String) (fetched : Nat) (batch : List RepoRecord)
    (db : DB) :
    (info.remaining < 10 → fetched < maxF →
      crawlLoop key maxF
          (GqlResponse.page (some info) edges hasNext endCur :: rest)
          cursor fetched batch db
        = (crawlLoop key maxF rest cursor fetched batch db).map
            (fun r => { r with trace := (Call.request cursor ::
              Call.sleepRL (max 5 (info.resetSecs + 5)) :: r.trace) })
      ∧ info.resetSecs ≤ max 5 (info.resetSecs + 5))
    ∧ (10 ≤ info.remaining →
      crawlLoop key maxF
          (GqlResponse.page (some info) edges hasNext endCur :: rest)
          cursor fetched batch db
        = crawlLoop key maxF
            (GqlResponse.page none edges hasNext endCur :: rest)
            cursor fetched batch db)
    ∧ (∀ pe, processEdges key maxF cursor edges batch fetched db = some pe →
        noRLSleep pe.events = true) := by
  refine ⟨?_, ?_, ?_⟩
  · intro hrem hf
    constructor
    · simp only [crawlLoop]
      rw [if_pos hf, if_pos (show rlLow (some info) = true by
        simp [rlLow]; exact hrem)]
      rfl
    · exact le_trans (by omega) (le_max_right 5 (info.resetSecs + 5))
  · intro hrem
    have hrl : rlLow (some info) = false := by
      simp only [rlLow, decide_eq_false_iff_not]
      omega
    by_cases hf : fetched < maxF
    · simp only [crawlLoop]
      rw [if_pos hf, if_pos hf, if_neg (by simp [hrl]),
        if_neg (by simp [rlLow])]
    · simp only [crawlLoop]
      rw [if_neg hf, if_neg hf]
  · intro pe hpe
    exact (processEdges_spec key maxF cursor _ _ _ _ _ hpe).2.2.2.2.2.2

/-- Witness for C7's low branch at remaining 5 and 100 seconds to
reset: the step equals a retry of the same state after a 105-second
sleep, and 105 is at least the time to reset. -/
theorem c7_rate_limit_backoff_witness :
    (crawlLoop "k" 1 [GqlResponse.page (some ⟨5, 100⟩) [] false none]
        none 0 [] emptyDB
      = (crawlLoop "k" 1 [] none 0 [] emptyDB).map
          (fun r => { r with trace := (Call.request none ::
            Call.sleepRL (max 5 ((100 : Int) + 5)) :: r.trace) }))
    ∧ (100 : Int) ≤ max 5 ((100 : Int) + 5) :=
  (c7_rate_limit_backoff "k" 1 ⟨5, 100⟩ [] false none [] none 0 []
    emptyDB).1 (by decide) (by decide)

/-- Claim C2: with no prior checkpoint, target 120 and pages of
50/50/20 records with `hasNextPage` false only on the last page,
`crawl_partition` flushes batches of 50, 50 and 20, writes three
checkpoint deltas of 50/50/20 whose cumulative stored counts are
50/100/120 (the final stored count is 120), and returns
`fetched = 120` with nothing left unflushed. -/
theorem c2_end_to_end_scenario :
    (crawl_partition "p" 120 c2pages emptyDB).map (fun r =>
      (upsertLens r.trace, cpDeltas r.trace, cumSums (cpDeltas r.trace),
       r.fetched, (get_checkpoint r.db "p").2, r.batch.length))
    = some ([50, 50, 20], [50, 50, 20], [50, 100, 120], 120, 120, 0) := by
  decide

/-- Counterexample to claim C1 as stated: with target 1 and a single
page holding one record and `hasNextPage = true`, the run completes,
returns `fetched = 1` counting the one parsed record, yet performs no
`bulk_upsert` at all and leaves that record in the in-memory batch. -/
theorem c1_unflushed_batch_counterexample :
    (crawl_partition "k" 1
        [GqlResponse.page none [dEdge] true (some "c1")] emptyDB).map
      (fun r => (r.fetched, r.parsed.length, r.batch.length, upsertLens r.trace))
    = some (1, 1, 1, []) := by
  decide

/-! ## Partition planner coverage -/

/-- The shrunk window end is either the weekly end or the single-day
start. -/
lemma shrinkWindow_fst (probe : Nat → Nat → Except Unit Nat)
    (current wEnd0 count0 : Nat) :
    (shrinkWindow probe current wEnd0 count0).1 = wEnd0 ∨
      (shrinkWindow probe current wEnd0 count0).1 = current := by
  rw [shrinkWindow]
  by_cases h : 1000 < count0
  · rw [if_pos h]
    cases probe current current <;> simp
  · rw [if_neg h]
    exact Or.inl rfl

/-- The planner's windows form a contiguous chain of day ranges
starting at the loop's current day, and every window ends within the
global range. -/
lemma planLoop_chain (probe : Nat → Nat → Except Unit Nat)
    (fetchO : Nat → Nat → Nat → Nat) (endDay target : Nat) :
    ∀ fuel current collected : Nat,
      chainFrom current
          (planLoop probe fetchO endDay target fuel current collected).windows
        = true
      ∧ ∀ w ∈ (planLoop probe fetchO endDay target fuel current collected).windows,
          w.2 ≤ endDay := by
  intro fuel
  induction fuel with
  | zero =>
    intro current collected
    exact ⟨rfl, by intro w hw; simp [planLoop] at hw⟩
  | succ n ih =>
    intro current collected
    by_cases hc : current < endDay ∧ collected < target
    · have hcur : current ≤ min endDay (current + 6) :=
        le_min (le_of_lt hc.1) (by omega)
      have hend : min endDay (current + 6) ≤ endDay := min_le_left _ _
      have hwf := shrinkWindow_fst probe current (min endDay (current + 6))
        (probeCount probe current (min endDay (current + 6)))
      rw [planLoop, if_pos hc]
      dsimp only
      have hcur' : current ≤
          (shrinkWindow probe current (min endDay (current + 6))
            (probeCount probe current (min endDay (current + 6)))).1 := by
        rcases hwf with hwf | hwf <;> rw [hwf]
        exact hcur
      have hend' :
          (shrinkWindow probe current (min endDay (current + 6))
            (probeCount probe current (min endDay (current + 6)))).1 ≤ endDay := by
        rcases hwf with hwf | hwf <;> rw [hwf]
        · exact hend
        · exact le_of_lt hc.1
      constructor
      · rw [chainFrom]
        simp only [Bool.and_eq_true, decide_eq_true_eq]
        exact ⟨⟨trivial, hcur'⟩, (ih _ _).1⟩
      · intro w hw
        rcases List.mem_cons.mp hw with hw | hw
        · rw [hw]
          exact hend'
        · exact (ih _ _).2 w hw
    · rw [planLoop, if_neg hc]
      exact ⟨rfl, by intro w hw; simp at hw⟩

/-- Claim C5 (amended): the windows `partition_and_crawl` emits are
contiguous — each starts the day after the previous one ends, also
when a window was shrunk to a single day — non-overlapping, start
exactly at the global start date (`end - 1825` days), and all end
within the global range, so they cover a gap-free prefix of it; the
run does not in general span the whole range (see the
counterexample). -/
theorem c5_partition_coverage (probe : Nat → Nat → Except Unit Nat)
    (fetchO : Nat → Nat → Nat → Nat) (endDay target : Nat) :
    chainFrom (endDay - spanDays)
        (partition_and_crawl probe fetchO endDay target).windows = true
    ∧ ∀ w ∈ (partition_and_crawl probe fetchO endDay target).windows,
        w.2 ≤ endDay :=
  planLoop_chain probe fetchO endDay target (spanDays + 1) (endDay - spanDays) 0

/-- Counterexample to claim C5 as stated: with every probe returning 5
and every partition yielding exactly its target, a run with global
target 1 over the range `[175, 2000]` emits the single window
`(175, 181)` and stops, leaving day `182` of the configured range
uncovered — the windows do not span the global range. -/
theorem c5_coverage_counterexample :
    (partition_and_crawl (fun _ _ => Except.ok 5) (fun _ _ t => t)
        2000 1).windows = [(175, 181)]
    ∧ coversDay
        (partition_and_crawl (fun _ _ => Except.ok 5) (fun _ _ t => t)
          2000 1).windows 182 = false
    ∧ 2000 - spanDays ≤ 182 ∧ 182 ≤ 2000 := by
  decide

/-! ## Request client retry policy -/

/-- Claim C9: `graphql_post` retries only transport failures, sleeping
`min(60, 2^attempt)` seconds after failed attempt `attempt` (counted
from 1); it raises (returns `none`) exactly when all 6 attempts fail,
and a successful HTTP response — with or without an application-level
`errors` list — is returned immediately with no further attempt or
sleep. -/
theorem c9_retry_policy (env : Nat → HttpOutcome) :
    ((∀ i, 1 ≤ i → i ≤ 6 → env i = HttpOutcome.transportErr) →
      graphql_post env = (none, [2, 4, 8, 16, 32, 60]))
    ∧ (∀ k e, 1 ≤ k → k ≤ 6 →
        (∀ i, 1 ≤ i → i < k → env i = HttpOutcome.transportErr) →
        env k = HttpOutcome.success e →
        graphql_post env = (some e, (List.range' 1 (k - 1)).map backoff)) := by
  have hb1 : backoff 1 = 2 := by decide
  have hb2 : backoff 2 = 4 := by decide
  have hb3 : backoff 3 = 8 := by decide
  have hb4 : backoff 4 = 16 := by decide
  have hb5 : backoff 5 = 32 := by decide
  have hb6 : backoff 6 = 60 := by decide
  constructor
  · intro h
    have h1 := h 1 (by omega) (by omega)
    have h2 := h 2 (by omega) (by omega)
    have h3 := h 3 (by omega) (by omega)
    have h4 := h 4 (by omega) (by omega)
    have h5 := h 5 (by omega) (by omega)
    have h6 := h 6 (by omega) (by omega)
    simp [graphql_post, gqlAttempt, h1, h2, h3, h4, h5, h6,
      hb1, hb2, hb3, hb4, hb5, hb6]
  · intro k e hk1 hk6 hprev hk
    interval_cases k
    · simp [graphql_post, gqlAttempt, hk, List.range']
    · have h1 := hprev 1 (by omega) (by omega)
      simp [graphql_post, gqlAttempt, h1, hk, hb1, List.range']
    · have h1 := hprev 1 (by omega) (by omega)
      have h2 := hprev 2 (by omega) (by omega)
      simp [graphql_post, gqlAttempt, h1, h2, hk, hb1, hb2, List.range']
    · have h1 := hprev 1 (by omega) (by omega)
      have h2 := hprev 2 (by omega) (by omega)
      have h3 := hprev 3 (by omega) (by omega)
      simp [graphql_post, gqlAttempt, h1, h2, h3, hk, hb1, hb2, hb3,
        List.range']
    · have h1 := hprev 1 (by omega) (by omega)
      have h2 := hprev 2 (by omega) (by omega)
      have h3 := hprev 3 (by omega) (by omega)
      have h4 := hprev 4 (by omega) (by omega)
      simp [graphql_post, gqlAttempt, h1, h2, h3, h4, hk, hb1, hb2, hb3, hb4,
        List.range']
    · have h1 := hprev 1 (by omega) (by omega)
      have h2 := hprev 2 (by omega) (by omega)
      have h3 := hprev 3 (by omega) (by omega)
      have h4 := hprev 4 (by omega) (by omega)
      have h5 := hprev 5 (by omega) (by omega)
      simp [graphql_post, gqlAttempt, h1, h2, h3, h4, h5, hk,
        hb1, hb2, hb3, hb4, hb5, List.range']

/-- Witness for C9: with every attempt failing at transport level, the
call raises after the six backoff sleeps 2, 4, 8, 16, 32, 60. -/
theorem c9_retry_policy_witness :
    graphql_post (fun _ => HttpOutcome.transportErr)
      = (none, [2, 4, 8, 16, 32, 60]) :=
  (c9_retry_policy (fun _ => HttpOutcome.transportErr)).1
    (fun _ _ _ => rfl)

/-- Witness for C10 on the all-absent node. -/
theorem c10_parse_total_nonneg_witness :
    ∃ r, parse_repo_node emptyNode = some r
      ∧ 0 ≤ r.stars ∧ 0 ≤ r.forks
      ∧ ((emptyNode.stargazerCount = JField.absent ∨ emptyNode.stargazerCount = JField.null)
          → r.stars = 0)
      ∧ ((emptyNode.forkCount = JField.absent ∨ emptyNode.forkCount = JField.null)
          → r.forks = 0)
      ∧ ((emptyNode.primaryLanguage = JField.absent ∨ emptyNode.primaryLanguage = JField.null)
          → r.language = none)
      ∧ ((emptyNode.description = JField.absent ∨ emptyNode.description = JField.null)
          → r.description = none) :=
  c10_parse_total_nonneg emptyNode (by decide)
